import Mathlib

/-!
Verification of the multi-agent coordination core of the repository
(message bus, agent state machine, agent manager) against its
natural-language specification.

The Python code is shallowly embedded:
- Python `dict`s are insertion-ordered association lists (`dictGet`,
  `dictSet`, `dictRemove` mirror `d[k]`, `d[k] = v`, `del d[k]`);
- `queue.Queue` is a FIFO list (head = front);
- `datetime.now()` is passed in as an explicit timestamp parameter;
- a Python function that falls off the end returns `none`
  (the implicit `None`), modelled as an `Option Bool` result where a
  `return True/False` would produce `some`;
- reference aliasing of Python dict objects, which most claims do not
  need, is modelled separately in the `RefModel` namespace.
-/

namespace MultiAgent

/-- Lookup in a Python-dict model: first binding with the given key. -/
def dictGet {κ α : Type} [DecidableEq κ] : List (κ × α) → κ → Option α
  | [], _ => none
  | (k', v) :: rest, k => if k' = k then some v else dictGet rest k

/-- Python dict assignment `d[k] = v`: update in place if the key exists
(keeping its position), otherwise append at the end. -/
def dictSet {κ α : Type} [DecidableEq κ] : List (κ × α) → κ → α → List (κ × α)
  | [], k, v => [(k, v)]
  | (k', v') :: rest, k, v =>
      if k' = k then (k, v) :: rest else (k', v') :: dictSet rest k v

/-- Python `del d[k]`: remove the first binding with the given key. -/
def dictRemove {κ α : Type} [DecidableEq κ] : List (κ × α) → κ → List (κ × α)
  | [], _ => []
  | (k', v') :: rest, k => if k' = k then rest else (k', v') :: dictRemove rest k

/-- The key list of a dict model, in insertion order. -/
def dictKeys {κ α : Type} (d : List (κ × α)) : List κ := d.map Prod.fst

theorem dictGet_dictSet_self {κ α : Type} [DecidableEq κ]
    (d : List (κ × α)) (k : κ) (v : α) : dictGet (dictSet d k v) k = some v := by
  induction d with
  | nil => simp [dictSet, dictGet]
  | cons kv rest ih =>
      obtain ⟨k', v'⟩ := kv
      by_cases h : k' = k
      · simp [dictSet, dictGet, h]
      · simp [dictSet, dictGet, h, ih]

theorem dictGet_dictSet_ne {κ α : Type} [DecidableEq κ]
    (d : List (κ × α)) (k k' : κ) (v : α) (h : k' ≠ k) :
    dictGet (dictSet d k v) k' = dictGet d k' := by
  induction d with
  | nil =>
      simp only [dictSet, dictGet]
      rw [if_neg (fun hh => h hh.symm)]
  | cons kv rest ih =>
      obtain ⟨k0, v0⟩ := kv
      by_cases h0 : k0 = k
      · subst h0
        simp only [dictSet, dictGet, if_pos rfl]
        rw [if_neg (fun hh => h hh.symm), if_neg (fun hh => h hh.symm)]
      · simp [dictSet, dictGet, h0, ih]

theorem dictKeys_dictSet_of_mem {κ α : Type} [DecidableEq κ]
    (d : List (κ × α)) (k : κ) (v : α) (h : (dictGet d k).isSome) :
    dictKeys (dictSet d k v) = dictKeys d := by
  induction d with
  | nil => simp [dictGet] at h
  | cons kv rest ih =>
      obtain ⟨k0, v0⟩ := kv
      by_cases h0 : k0 = k
      · simp [dictSet, dictKeys, h0]
      · simp [dictGet, h0] at h
        simp [dictSet, dictKeys, h0] at ih ⊢
        exact ih h

theorem dictSet_of_not_mem {κ α : Type} [DecidableEq κ]
    (d : List (κ × α)) (k : κ) (v : α) (h : dictGet d k = none) :
    dictSet d k v = d ++ [(k, v)] := by
  induction d with
  | nil => simp [dictSet]
  | cons kv rest ih =>
      obtain ⟨k0, v0⟩ := kv
      by_cases h0 : k0 = k
      · simp [dictGet, h0] at h
      · simp [dictGet, h0] at h
        simp [dictSet, h0, ih h]

theorem dictGet_isSome_iff_mem_keys {κ α : Type} [DecidableEq κ]
    (d : List (κ × α)) (k : κ) : (dictGet d k).isSome ↔ k ∈ dictKeys d := by
  induction d with
  | nil => simp [dictGet, dictKeys]
  | cons kv rest ih =>
      obtain ⟨k0, v0⟩ := kv
      by_cases h0 : k0 = k
      · simp [dictGet, dictKeys, h0]
      · simp only [dictGet, if_neg h0, dictKeys, List.map_cons, List.mem_cons]
        rw [dictKeys] at ih
        rw [ih]
        constructor
        · exact Or.inr
        · rintro (hk | hk)
          · exact absurd hk.symm h0
          · exact hk

theorem dictKeys_dictRemove {κ α : Type} [DecidableEq κ]
    (d : List (κ × α)) (k : κ) :
    dictKeys (dictRemove d k) = (dictKeys d).erase k := by
  induction d with
  | nil => simp [dictRemove, dictKeys]
  | cons kv rest ih =>
      obtain ⟨k0, v0⟩ := kv
      by_cases h0 : k0 = k
      · subst h0
        simp [dictRemove, dictKeys, List.erase_cons]
      · have hb : (k0 == k) = false := by simp [h0]
        simp [dictRemove, dictKeys, h0, List.erase_cons, hb] at ih ⊢
        exact ih

theorem dictGet_dictRemove_self {κ α : Type} [DecidableEq κ]
    (d : List (κ × α)) (k : κ) (hnd : (dictKeys d).Nodup) :
    dictGet (dictRemove d k) k = none := by
  induction d with
  | nil => simp [dictRemove, dictGet]
  | cons kv rest ih =>
      obtain ⟨k0, v0⟩ := kv
      have hk : dictKeys ((k0, v0) :: rest) = k0 :: dictKeys rest := rfl
      rw [hk, List.nodup_cons] at hnd
      by_cases h0 : k0 = k
      · subst h0
        simp only [dictRemove, if_pos rfl]
        cases hres : dictGet rest k0 with
        | none => exact hres
        | some v =>
            exfalso
            have hmem : k0 ∈ dictKeys rest := by
              rw [← dictGet_isSome_iff_mem_keys]
              simp [hres]
            exact hnd.1 hmem
      · simp only [dictRemove, if_neg h0, dictGet, if_neg h0]
        exact ih hnd.2

theorem dictGet_dictRemove_ne {κ α : Type} [DecidableEq κ]
    (d : List (κ × α)) (k k' : κ) (h : k' ≠ k) :
    dictGet (dictRemove d k) k' = dictGet d k' := by
  induction d with
  | nil => rfl
  | cons kv rest ih =>
      obtain ⟨k0, v0⟩ := kv
      simp only [dictRemove, dictGet]
      by_cases h0 : k0 = k
      · rw [if_pos h0, if_neg (fun hh => h (hh.symm.trans h0))]
      · rw [if_neg h0]
        simp only [dictGet]
        by_cases h1 : k0 = k'
        · rw [if_pos h1, if_pos h1]
        · rw [if_neg h1, if_neg h1]
          exact ih

/-- A message dict as built by `Agent.send_message` / `AgentManager.send_broadcast`
(src/agents/base_agent.py lines 51-59, src/agents/agent_manager.py lines 211-218)
and routed by the bus. `priority := none` models a dict without the
"priority" key (broadcast messages); `bus_timestamp := none` models a dict
without the "bus_timestamp" key (not yet routed). The payload is an opaque
string-keyed mapping. -/
structure Msg where
  message_id : String
  timestamp : String
  from_ : String
  to_ : String
  task : String
  payload : List (String × String)
  priority : Option String
  bus_timestamp : Option String
deriving DecidableEq

/-- The `MessageBus` state of src/communication/message_bus.py lines 26-30:
`queues` maps each registered agent name to its FIFO mailbox (the head of
the list is the front of the `Queue`), `history` is the append-only log,
`registered_agents` is the list the bus maintains alongside the queue dict. -/
structure MessageBus where
  queues : List (String × List Msg)
  history : List Msg
  registered_agents : List String
deriving DecidableEq

/-- `MessageBus.__init__`: empty queues, history and registry. -/
def MessageBus.empty : MessageBus := { queues := [], history := [], registered_agents := [] }

/-- `MessageBus.register_agent` (lines 32-44): creates a fresh mailbox and
appends the name to `registered_agents` when the name is new, otherwise only
prints a log line. The Python function has no `return` statement, so the
caller receives `None` on both paths; the `Option Bool` component records
that returned value (`none` = Python `None`). -/
def MessageBus.register_agent (b : MessageBus) (agent_name : String) :
    MessageBus × Option Bool :=
  if (dictGet b.queues agent_name).isSome then
    (b, none)
  else
    ({ b with queues := dictSet b.queues agent_name [],
              registered_agents := b.registered_agents ++ [agent_name] }, none)

/-- `MessageBus.unregister_agent` (lines 46-56): deletes the mailbox and
removes the name from `registered_agents` when present; when the name is
absent the body is skipped entirely (there is no else branch). Either way
the Python function returns `None`, recorded as the `Option Bool` component. -/
def MessageBus.unregister_agent (b : MessageBus) (agent_name : String) :
    MessageBus × Option Bool :=
  if (dictGet b.queues agent_name).isSome then
    ({ b with queues := dictRemove b.queues agent_name,
              registered_agents := b.registered_agents.erase agent_name }, none)
  else
    (b, none)

/-- The bus-stamped copy of a message: `message["bus_timestamp"] = datetime.now().isoformat()`
(line 74), with `now` standing for the clock reading. -/
def stampMsg (message : Msg) (now : String) : Msg := { message with bus_timestamp := some now }

/-- `MessageBus.send_message` (lines 58-83): returns `False` and changes
nothing when the receiver has no mailbox; otherwise stamps the message with
the bus timestamp, appends it to the tail of the receiver's queue, appends a
copy to the history, and returns `True`. In this value-level model the
`message.copy()` of line 80 is the value itself; the reference-level
consequences of the shallow copy are modelled in `RefModel`. -/
def MessageBus.send_message (b : MessageBus) (to_agent : String) (message : Msg)
    (now : String) : MessageBus × Bool :=
  match dictGet b.queues to_agent with
  | none => (b, false)
  | some q =>
      let m := stampMsg message now
      ({ b with queues := dictSet b.queues to_agent (q ++ [m]),
                history := b.history ++ [m] }, true)

/-- `MessageBus.get_message` (lines 85-108): `None` for an unknown agent;
otherwise the head of the FIFO queue, or `None` when the queue is empty
(the `Empty` exception branch). The `timeout` parameter only controls how
long `Queue.get` blocks before `Empty`; it does not affect which message is
returned, so it is not part of the pure model. -/
def MessageBus.get_message (b : MessageBus) (agent_name : String) :
    MessageBus × Option Msg :=
  match dictGet b.queues agent_name with
  | none => (b, none)
  | some [] => (b, none)
  | some (m :: rest) =>
      ({ b with queues := dictSet b.queues agent_name rest }, some m)

/-- `MessageBus.has_messages` (lines 110-122). -/
def MessageBus.has_messages (b : MessageBus) (agent_name : String) : Bool :=
  match dictGet b.queues agent_name with
  | none => false
  | some q => !q.isEmpty

/-- `MessageBus.get_queue_size` (lines 124-136): 0 for an unknown agent. -/
def MessageBus.get_queue_size (b : MessageBus) (agent_name : String) : Nat :=
  match dictGet b.queues agent_name with
  | none => 0
  | some q => q.length

/-- Python slice `xs[start:]` for an arbitrary integer `start`:
a negative start counts from the end (clamped at 0), a non-negative start
drops that many elements (clamped at the length). -/
def pySliceFrom {α : Type} (xs : List α) (start : Int) : List α :=
  if start < 0 then xs.drop (xs.length - (-start).toNat)
  else xs.drop start.toNat

/-- `MessageBus.get_history` (lines 138-163). Each filter is applied only
when its argument is truthy in Python (`if from_agent:`), i.e. present and
non-empty; the limit slice `filtered[-limit:]` is applied only when `limit`
is truthy, i.e. present and non-zero. -/
def MessageBus.get_history (b : MessageBus) (limit : Option Int)
    (from_agent to_agent : Option String) : List Msg :=
  let filtered := b.history
  let filtered := match from_agent with
    | some s => if s = "" then filtered else filtered.filter (fun m => m.from_ = s)
    | none => filtered
  let filtered := match to_agent with
    | some s => if s = "" then filtered else filtered.filter (fun m => m.to_ = s)
    | none => filtered
  match limit with
  | some l => if l = 0 then filtered else pySliceFrom filtered (-l)
  | none => filtered

/-- `MessageBus.clear_history` (lines 165-168). -/
def MessageBus.clear_history (b : MessageBus) : MessageBus := { b with history := [] }

/-- The dict returned by `MessageBus.get_stats` (lines 170-187). -/
structure Stats where
  registered_agents : Nat
  agents : List String
  total_messages_sent : Nat
  pending_messages : List (String × Nat)
deriving DecidableEq

/-- `MessageBus.get_stats` (lines 170-187): counts and names of registered
agents, `len(self.history)` as the total-sent counter, and a dict of pending
counts built by iterating `registered_agents` and assigning
`stats["pending_messages"][agent_name]`. -/
def MessageBus.get_stats (b : MessageBus) : Stats :=
  { registered_agents := b.registered_agents.length
    agents := b.registered_agents
    total_messages_sent := b.history.length
    pending_messages :=
      b.registered_agents.foldl
        (fun acc agent_name => dictSet acc agent_name (b.get_queue_size agent_name)) [] }

/-- `MessageBus.reset` (lines 203-208): unregister every agent, iterating
over a snapshot `list(self.queues.keys())` of the key list, then clear the
history. -/
def MessageBus.reset (b : MessageBus) : MessageBus :=
  let b' := (dictKeys b.queues).foldl (fun acc agent_name => (acc.unregister_agent agent_name).1) b
  b'.clear_history

namespace Backend

/-- A `Message` object of src/backend/models/message.py: sender, receiver,
message type (the `MessageType` enum value as its string), opaque content,
optional conversation id and timestamps. -/
structure BMessage where
  id : String
  sender : String
  receiver : String
  message_type : String
  content : String
  conversation_id : Option String
  timestamp : String
deriving DecidableEq

/-- The `MessageBus` of src/backend/communication/message_bus.py lines 11-15:
per-agent queues, a history list and an explicit `total_messages` counter
(`self.stats = \x7b"total_messages": 0\x7d`). The `threading.Lock` only
serializes access and has no effect on the sequential semantics. -/
structure MessageBus where
  agent_queues : List (String × List BMessage)
  message_history : List BMessage
  total_messages : Nat
deriving DecidableEq

/-- `MessageBus.__init__` of the backend bus. -/
def MessageBus.empty : MessageBus :=
  { agent_queues := [], message_history := [], total_messages := 0 }

/-- Backend `MessageBus.register_agent` (lines 17-22): creates a queue only
when the name is new; returns `None` either way. -/
def MessageBus.register_agent (b : MessageBus) (agent_name : String) : MessageBus :=
  if (dictGet b.agent_queues agent_name).isSome then b
  else { b with agent_queues := dictSet b.agent_queues agent_name [] }

/-- Backend `MessageBus.send_message` (lines 24-36): `False` and no change
when `message.receiver` has no queue; otherwise enqueue, append to history,
increment `total_messages`, return `True`. -/
def MessageBus.send_message (b : MessageBus) (message : BMessage) : MessageBus × Bool :=
  match dictGet b.agent_queues message.receiver with
  | none => (b, false)
  | some q =>
      ({ b with agent_queues := dictSet b.agent_queues message.receiver (q ++ [message]),
                message_history := b.message_history ++ [message],
                total_messages := b.total_messages + 1 }, true)

/-- Backend `MessageBus.receive_message` (lines 38-46): `None` for an unknown
agent or an empty queue, else the FIFO head. -/
def MessageBus.receive_message (b : MessageBus) (agent_name : String) :
    MessageBus × Option BMessage :=
  match dictGet b.agent_queues agent_name with
  | none => (b, none)
  | some [] => (b, none)
  | some (m :: rest) =>
      ({ b with agent_queues := dictSet b.agent_queues agent_name rest }, some m)

end Backend

/-- The agent states of src/agents/base_agent.py: the `self.state` strings
"idle", "processing", "error", "stopped". -/
inductive AgentState
  | idle
  | processing
  | error
  | stopped
deriving DecidableEq

/-- The observable fields of an `Agent` (src/agents/base_agent.py lines
16-23): the immutable name and the mutable state string. The logger carries
no semantics. -/
structure Agent where
  name : String
  state : AgentState
deriving DecidableEq

/-- `Agent.__init__`: `self.state = "idle"`. -/
def Agent.mk0 (name : String) : Agent := { name := name, state := .idle }

/-- The result dict of `process_task` / `handle_message`: an opaque
string-keyed mapping. -/
def ResultDict : Type := List (String × String)

/-- A task handler models the abstract `process_task(task, payload)` of a
concrete agent subclass: `.ok result` is a normal return, `.error e` is a
raised exception whose `str(e)` is `e` (possibly the empty string, as for
`raise ValueError()`). -/
def Handler : Type := String → List (String × String) → Except String ResultDict

/-- `Agent.handle_message` (src/agents/base_agent.py lines 81-101): sets the
state to "processing", calls `process_task(message.get("task"),
message.get("payload", \x7b\x7d))`; on a normal return sets "idle" and returns the
result; on an exception sets "error" and returns
`\x7b"status": "error", "error": str(e)\x7d`. The function is total: every
exception of the handler is caught here and never propagates. -/
def Agent.handle_message (a : Agent) (process_task : Handler) (message : Msg) :
    Agent × ResultDict :=
  let a1 : Agent := { a with state := .processing }
  match process_task message.task message.payload with
  | .ok result => ({ a1 with state := .idle }, result)
  | .error e => ({ a1 with state := .error }, [("status", "error"), ("error", e)])

/-- `Agent.start` (lines 126-129): unconditionally sets `self.state = "idle"`. -/
def Agent.start (a : Agent) : Agent := { a with state := .idle }

/-- `Agent.stop` (lines 131-134): unconditionally sets `self.state = "stopped"`. -/
def Agent.stop (a : Agent) : Agent := { a with state := .stopped }

/-- The part of `AgentManager` (src/agents/agent_manager.py lines 27-30)
that `send_broadcast` reads: the key list of the `self.agents` dict (in
insertion order; the mapped `Agent` objects are not consulted by broadcast)
and the owned `MessageBus`. -/
structure AgentManager where
  agents : List String
  message_bus : MessageBus
deriving DecidableEq

/-- The message dict built for one broadcast target (src/agents/
agent_manager.py lines 211-218): id `broadcast_<int(now)>`, sender
"AgentManager", receiver the target name, and no "priority" key. `nowTs`
and `nowIso` stand for the two clock reads; the clock is modelled as
constant for the duration of the loop. -/
def broadcastMsg (task : String) (payload : List (String × String))
    (nowTs nowIso : String) (agent_name : String) : Msg :=
  { message_id := "broadcast_" ++ nowTs
    timestamp := nowIso
    from_ := "AgentManager"
    to_ := agent_name
    task := task
    payload := payload
    priority := none
    bus_timestamp := none }

/-- One iteration of the `AgentManager.send_broadcast` loop (lines 209-219):
skip the name when it is in `exclude`, otherwise build the broadcast message
and call `self.message_bus.send_message(agent_name, message)`. A failed
send returns `False` and the loop simply continues with the next name. -/
def bcastStep (task : String) (payload : List (String × String))
    (excl : List String) (nowTs nowIso : String)
    (bus : MessageBus) (agent_name : String) : MessageBus :=
  if agent_name ∈ excl then bus
  else (bus.send_message agent_name
          (broadcastMsg task payload nowTs nowIso agent_name) nowIso).1

/-- `AgentManager.send_broadcast` (lines 198-221): `exclude = exclude or []`
(`Option.getD []` — for both `None` and the falsy `[]` Python's `or` yields
`[]`), then the loop body `bcastStep` folded over the keys of the agents
dict in insertion order. -/
def AgentManager.send_broadcast (mgr : AgentManager) (task : String)
    (payload : List (String × String)) (exclude : Option (List String))
    (nowTs nowIso : String) : AgentManager :=
  let excl := exclude.getD []
  { mgr with
      message_bus :=
        mgr.agents.foldl (bcastStep task payload excl nowTs nowIso) mgr.message_bus }

namespace RefModel

/-- A message dict object at reference level: top-level fields are stored in
the object, while the payload dict is held by reference (`payloadRef` names
a cell of the payload heap), exactly as Python stores a nested dict. -/
structure MsgObj where
  message_id : String
  timestamp : String
  from_ : String
  to_ : String
  task : String
  payloadRef : Nat
  priority : Option String
  bus_timestamp : Option String
deriving DecidableEq

/-- The Python object heap relevant to the bus: message-dict cells, payload-
dict cells and a fresh-reference counter for allocations. -/
structure Store where
  msgs : List (Nat × MsgObj)
  payloads : List (Nat × List (String × String))
  next : Nat
deriving DecidableEq

/-- Bus state at reference level: mailboxes and history hold references to
message objects, not values. -/
structure RefBus where
  queues : List (String × List Nat)
  history : List Nat
deriving DecidableEq

/-- Dereference a payload cell. -/
def Store.payloadAt (st : Store) (r : Nat) : List (String × String) :=
  (dictGet st.payloads r).getD []

/-- Mutation `msg["payload"][k] = v` performed by the sender through its own
reference to the message object. -/
def Store.setPayloadKey (st : Store) (pRef : Nat) (k v : String) : Store :=
  { st with payloads := dictSet st.payloads pRef (dictSet (st.payloadAt pRef) k v) }

/-- Mutation `msg["task"] = v` performed by the sender through its own
reference to the message object. -/
def Store.setTask (st : Store) (r : Nat) (v : String) : Store :=
  match dictGet st.msgs r with
  | none => st
  | some obj => { st with msgs := dictSet st.msgs r { obj with task := v } }

/-- `MessageBus.send_message` (src/communication/message_bus.py lines 58-83)
at reference level. Line 74 mutates the caller's own message object (adds
the bus timestamp); line 77 puts THE SAME reference into the receiver's
queue; line 80 appends `message.copy()` to the history — a freshly
allocated object whose top-level fields are copied but whose `payloadRef`
is shared (a shallow `dict.copy`). -/
def send_message (st : Store) (b : RefBus) (to_agent : String) (msgRef : Nat)
    (now : String) : Store × RefBus × Bool :=
  match dictGet b.queues to_agent with
  | none => (st, b, false)
  | some q =>
      match dictGet st.msgs msgRef with
      | none => (st, b, false)
      | some obj =>
          let obj := { obj with bus_timestamp := some now }
          let st := { st with msgs := dictSet st.msgs msgRef obj }
          let b := { b with queues := dictSet b.queues to_agent (q ++ [msgRef]) }
          let copyRef := st.next
          let st := { st with msgs := dictSet st.msgs copyRef obj, next := st.next + 1 }
          let b := { b with history := b.history ++ [copyRef] }
          (st, b, true)

/-- `MessageBus.get_message` at reference level: dequeues the head
reference of the agent's FIFO queue. -/
def get_message (b : RefBus) (agent_name : String) : RefBus × Option Nat :=
  match dictGet b.queues agent_name with
  | none => (b, none)
  | some [] => (b, none)
  | some (r :: rest) =>
      ({ b with queues := dictSet b.queues agent_name rest }, some r)

end RefModel

/-- The bus operations quantified over by the registry-consistency claim;
`send` and `receive` carry their Python arguments, `now` being the clock
reading used for the bus timestamp. -/
inductive BusOp
  | register (name : String)
  | unregister (name : String)
  | send (to_agent : String) (message : Msg) (now : String)
  | receive (name : String)
  | reset
deriving DecidableEq

/-- The bus state reached by executing one operation. -/
def applyOp (b : MessageBus) : BusOp → MessageBus
  | .register name => (b.register_agent name).1
  | .unregister name => (b.unregister_agent name).1
  | .send to_agent message now => (b.send_message to_agent message now).1
  | .receive name => (b.get_message name).1
  | .reset => b.reset

/-- The bus state reached by executing a sequence of operations in order. -/
def runOps (b : MessageBus) (ops : List BusOp) : MessageBus :=
  ops.foldl applyOp b

/-- Registry well-formedness: the `registered_agents` list is exactly the
key list of the queue dict (hence in particular duplicate-free and equal,
as a set, to the names owning a mailbox). -/
def BusWF (b : MessageBus) : Prop :=
  b.registered_agents = dictKeys b.queues ∧ (dictKeys b.queues).Nodup

/-- The history query as the specification words it: the oldest-to-newest
subsequence of the history matching the optional sender and receiver
filters, trimmed after filtering to the last `limit` entries when a limit
is given. (Spec-side definition, to be compared with
`MessageBus.get_history`.) -/
def get_history_spec (b : MessageBus) (limit : Option Nat)
    (from_agent to_agent : Option String) : List Msg :=
  let f1 := match from_agent with
    | some s => b.history.filter (fun m => m.from_ = s)
    | none => b.history
  let f2 := match to_agent with
    | some s => f1.filter (fun m => m.to_ = s)
    | none => f1
  match limit with
  | some l => f2.drop (f2.length - l)
  | none => f2

/-- The transition set of the specification's state machine (§4.2), as a
relation on (state before, state after); staying in place is not a change,
so it is allowed. -/
def specAllowed : AgentState → AgentState → Bool
  | .stopped, .idle => true
  | .idle, .processing => true
  | .processing, .idle => true
  | .processing, .error => true
  | .idle, .stopped => true
  | .error, .stopped => true
  | s, s' => s == s'

/-- Concrete message fixture used by witnesses: the dict built by
`Agent.send_message("B", "echo", \x7b"x": "1"\x7d)` for sender "A". -/
def msgEcho : Msg :=
  { message_id := "mid1", timestamp := "t0", from_ := "A", to_ := "B",
    task := "echo", payload := [("x", "1")], priority := some "normal",
    bus_timestamp := none }

/-- Second concrete message fixture (same sender and receiver). -/
def msgEcho2 : Msg :=
  { message_id := "mid2", timestamp := "t0b", from_ := "A", to_ := "B",
    task := "echo", payload := [("x", "2")], priority := some "normal",
    bus_timestamp := none }

/-- A bus with only "A" registered. -/
def busA1 : MessageBus := (MessageBus.empty.register_agent "A").1

/-- A bus with "A" registered and one message pending in A's mailbox. -/
def busA1p : MessageBus := (busA1.send_message "A" msgEcho "t1").1

/-- A bus with only "B" registered. -/
def busB1 : MessageBus := (MessageBus.empty.register_agent "B").1

/-- Concrete backend message fixture. -/
def bmsgSample : Backend.BMessage :=
  { id := "b1", sender := "A", receiver := "B", message_type := "task_request",
    content := "hello", conversation_id := none, timestamp := "t0" }

/-- Concrete agent fixture in the idle state. -/
def testerAgent : Agent := { name := "Tester", state := .idle }

/-- Concrete agent fixture caught in the processing state. -/
def procAgent : Agent := { name := "W", state := .processing }

/-- C2: for every bus state and every message whose receiver name is not
registered, send returns False and leaves the entire bus state unchanged —
history length, every mailbox's contents and the total-sent counter are
identical before and after — in both MessageBus implementations
(src/communication/message_bus.py and src/backend/communication/message_bus.py). -/
theorem send_unregistered_no_effect
    (b : MessageBus) (to_agent : String) (message : Msg) (now : String)
    (bb : Backend.MessageBus) (bm : Backend.BMessage)
    (h : dictGet b.queues to_agent = none)
    (hb : dictGet bb.agent_queues bm.receiver = none) :
    b.send_message to_agent message now = (b, false) ∧
    (b.send_message to_agent message now).1.history.length = b.history.length ∧
    (∀ n, dictGet (b.send_message to_agent message now).1.queues n = dictGet b.queues n) ∧
    (b.send_message to_agent message now).1.get_stats.total_messages_sent
      = b.get_stats.total_messages_sent ∧
    bb.send_message bm = (bb, false) ∧
    (bb.send_message bm).1.total_messages = bb.total_messages := by
  have h1 : b.send_message to_agent message now = (b, false) := by
    unfold MessageBus.send_message
    rw [h]
  have h2 : bb.send_message bm = (bb, false) := by
    unfold Backend.MessageBus.send_message
    rw [hb]
  exact ⟨h1, by rw [h1], fun n => by rw [h1], by rw [h1], h2, by rw [h2]⟩

theorem send_unregistered_no_effect_witness :
    MessageBus.empty.send_message "ghost" msgEcho "t1" = (MessageBus.empty, false) ∧
    Backend.MessageBus.empty.send_message bmsgSample = (Backend.MessageBus.empty, false) :=
  ⟨(send_unregistered_no_effect MessageBus.empty "ghost" msgEcho "t1"
      Backend.MessageBus.empty bmsgSample rfl rfl).1,
   (send_unregistered_no_effect MessageBus.empty "ghost" msgEcho "t1"
      Backend.MessageBus.empty bmsgSample rfl rfl).2.2.2.2.1⟩

/-- C3 counterexample: `handle_message` stores `str(e)` as the error field,
and `str(e)` is empty for an exception raised without a message
(`raise ValueError()`); so the structured result's error string is NOT
always non-empty — for an empty-description failure the claim's
"error: non-empty string" is false. -/
theorem handle_message_empty_error_counterexample :
    testerAgent.handle_message (fun _ _ => .error "") msgEcho
      = ({ testerAgent with state := .error }, [("status", "error"), ("error", "")]) ∧
    ¬ (∃ s, dictGet (testerAgent.handle_message (fun _ _ => .error "") msgEcho).2 "error"
              = some s ∧ s ≠ "") := by
  constructor
  · rfl
  · rintro ⟨s, hs, hne⟩
    have hv : dictGet (testerAgent.handle_message (fun _ _ => .error "") msgEcho).2 "error"
        = some "" := by decide
    rw [hv] at hs
    exact hne (Option.some.inj hs).symm

/-- C3 (amended): on any failure raised by `process_task`, `handle_message`
catches it, sets the agent's state to Error, and returns the structured
result with status "error" and the failure's description `str(e)` as the
error field — which may be empty. No exception propagates: the embedded
function is total and this equation gives its value on every failing
handler. -/
theorem handle_message_contains_failure
    (a : Agent) (process_task : Handler) (m : Msg) (e : String)
    (h : process_task m.task m.payload = .error e) :
    a.handle_message process_task m
      = ({ a with state := .error }, [("status", "error"), ("error", e)]) ∧
    (a.handle_message process_task m).1.state = .error ∧
    dictGet (a.handle_message process_task m).2 "status" = some "error" := by
  have h1 : a.handle_message process_task m
      = ({ a with state := .error }, [("status", "error"), ("error", e)]) := by
    unfold Agent.handle_message
    rw [h]
  refine ⟨h1, by rw [h1], ?_⟩
  rw [h1]
  simp [dictGet]

theorem handle_message_contains_failure_witness :
    testerAgent.handle_message (fun _ _ => .error "boom failed") msgEcho
      = ({ testerAgent with state := .error },
         [("status", "error"), ("error", "boom failed")]) :=
  (handle_message_contains_failure testerAgent
    (fun _ _ => .error "boom failed") msgEcho "boom failed" rfl).1

/-- C5 counterexample: a second `register_agent` call for an already
registered name IS a no-op, but it does not return any failure/non-success
indication: the Python function returns `None` on this path exactly as it
does on the successful path, so the two calls are indistinguishable by
return value — the negation of "returns a failure/non-success indication
to the caller". -/
theorem register_duplicate_reports_nothing :
    (busA1.register_agent "A").2 = none ∧
    (MessageBus.empty.register_agent "A").2 = none ∧
    (busA1.register_agent "A").2 = (MessageBus.empty.register_agent "A").2 ∧
    (busA1.register_agent "A").1 = busA1 := by decide

/-- C5 (amended): registering an already registered name is a complete
no-op — the bus state, hence the registry size and the existing mailbox
with its pending messages, is unchanged — and the call returns Python
`None`, exactly as a successful registration does; the non-success is only
printed to the log, not reported to the caller. -/
theorem register_duplicate_noop
    (b : MessageBus) (name : String) (h : (dictGet b.queues name).isSome) :
    b.register_agent name = (b, none) ∧
    (b.register_agent name).1.registered_agents.length = b.registered_agents.length ∧
    dictGet (b.register_agent name).1.queues name = dictGet b.queues name := by
  have h1 : b.register_agent name = (b, none) := by
    unfold MessageBus.register_agent
    rw [if_pos h]
  exact ⟨h1, by rw [h1], by rw [h1]⟩

theorem register_duplicate_noop_witness :
    busA1p.register_agent "A" = (busA1p, none) ∧
    busA1p.get_queue_size "A" = 1 :=
  ⟨(register_duplicate_noop busA1p "A" (by decide)).1, by decide⟩

/-- C6 counterexample: unregistering a name that is not registered is a
silent no-op: the bus is unchanged and the caller receives Python `None`,
the very same return value a successful unregistration produces — there is
no `UnknownAgent` failure observable by the caller, refuting the claim's
failure requirement at the concrete input name "ghost". -/
theorem unregister_unknown_silent :
    MessageBus.empty.unregister_agent "ghost" = (MessageBus.empty, none) ∧
    (busA1.unregister_agent "A").2 = (MessageBus.empty.unregister_agent "ghost").2 := by
  decide

/-- C6 (amended): unregistering an unknown name is a silent no-op returning
`None` (no observable failure); unregistering a registered name removes both
its mailbox and its registry entry, also returning `None`. -/
theorem unregister_semantics
    (b : MessageBus) (name : String) :
    (dictGet b.queues name = none → b.unregister_agent name = (b, none)) ∧
    ((dictGet b.queues name).isSome → (dictKeys b.queues).Nodup →
      dictGet (b.unregister_agent name).1.queues name = none ∧
      (b.unregister_agent name).1.registered_agents = b.registered_agents.erase name ∧
      (b.unregister_agent name).2 = none) := by
  constructor
  · intro h
    unfold MessageBus.unregister_agent
    rw [h]
    simp
  · intro h hnd
    have h1 : b.unregister_agent name
        = ({ b with queues := dictRemove b.queues name,
                    registered_agents := b.registered_agents.erase name }, none) := by
      unfold MessageBus.unregister_agent
      rw [if_pos h]
    rw [h1]
    exact ⟨dictGet_dictRemove_self _ _ hnd, rfl, rfl⟩

theorem unregister_semantics_witness :
    MessageBus.empty.unregister_agent "ghost" = (MessageBus.empty, none) ∧
    dictGet (busA1.unregister_agent "A").1.queues "A" = none :=
  ⟨(unregister_semantics MessageBus.empty "ghost").1 rfl,
   ((unregister_semantics busA1 "A").2 (by decide) (by decide)).1⟩

/-- C9 counterexample: `Agent.stop` assigns "stopped" unconditionally, so
from the Processing state it produces the transition Processing → Stopped,
which is outside the specification's transition set — refuting "stop() is
never taken from Processing". -/
theorem stop_from_processing_counterexample :
    procAgent.state = .processing ∧
    procAgent.stop.state = .stopped ∧
    specAllowed .processing .stopped = false := by decide

/-- C9 (amended): the code's state machine is the specification's without
its guards: `start` sets Idle from any state, `stop` sets Stopped from any
state (including Processing), `handle_message` enters Processing from any
state (including Stopped) and exits to Idle on a normal handler return or
Error on a handler failure; the name is immutable throughout. -/
theorem agent_transitions_unguarded
    (a : Agent) (process_task : Handler) (m : Msg) :
    a.start = { a with state := .idle } ∧
    a.stop = { a with state := .stopped } ∧
    (a.handle_message process_task m).1.name = a.name ∧
    (∀ r, process_task m.task m.payload = .ok r →
       (a.handle_message process_task m).1.state = .idle) ∧
    (∀ e, process_task m.task m.payload = .error e →
       (a.handle_message process_task m).1.state = .error) := by
  refine ⟨rfl, rfl, ?_, ?_, ?_⟩
  · unfold Agent.handle_message
    cases process_task m.task m.payload <;> rfl
  · intro r h
    unfold Agent.handle_message
    rw [h]
  · intro e h
    unfold Agent.handle_message
    rw [h]

theorem agent_transitions_unguarded_witness :
    (procAgent.handle_message (fun _ _ => .ok [("status", "ok")]) msgEcho).1.state = .idle ∧
    procAgent.stop = { procAgent with state := .stopped } :=
  ⟨(agent_transitions_unguarded procAgent (fun _ _ => .ok [("status", "ok")]) msgEcho).2.2.2.1
      [("status", "ok")] rfl,
   (agent_transitions_unguarded procAgent (fun _ _ => .ok [("status", "ok")]) msgEcho).2.1⟩

/-- A bus with "B" registered and one routed message in the history. -/
def busHist : MessageBus := (busB1.send_message "B" msgEcho "t1").1

/-- The Python `int` value of a given `Nat` limit. -/
def natLimitToInt : Option Nat → Option Int
  | none => none
  | some l => some (l : Int)

theorem c8aux_trim (xs : List Msg) (l : Nat) (hl : 0 < l) :
    (if (l : Int) = 0 then xs else pySliceFrom xs (-(l : Int)))
      = xs.drop (xs.length - l) := by
  have h0 : (l : Int) ≠ 0 := by omega
  rw [if_neg h0]
  unfold pySliceFrom
  have hneg : -(l : Int) < 0 := by omega
  rw [if_pos hneg]
  congr 1
  omega

/-- C8 counterexample: at `limit = 0` (a given limit), Python's `if limit:`
is falsy, so the code skips trimming and returns the whole filtered
history, whereas trimming to the last 0 entries would return []. -/
theorem get_history_limit_zero_counterexample :
    busHist.get_history (some (0 : Int)) none none
      ≠ get_history_spec busHist (some 0) none none ∧
    busHist.get_history (some (0 : Int)) none none = [stampMsg msgEcho "t1"] ∧
    get_history_spec busHist (some 0) none none = [] := by decide

/-- C8 (amended): the history query returns the oldest-to-newest subsequence
of the history matching the sender/receiver filters, trimmed after
filtering to the last `limit` entries — provided each given filter is
non-empty and a given limit is positive, the arguments Python treats as
truthy. (At falsy arguments the code skips the corresponding stage: an
empty-string filter does not filter and a zero limit does not trim; a
negative limit `l` would instead drop the first `-l` entries, per
`filtered[-limit:]`.) The stored history itself is never mutated: the query
is a pure function of the bus in this embedding, mirroring that the Python
code only rebinds the local `filtered`. -/
theorem get_history_matches_spec
    (b : MessageBus) (limit : Option Nat) (fa ta : Option String)
    (hfa : fa ≠ some "") (hta : ta ≠ some "")
    (hl : ∀ l, limit = some l → 0 < l) :
    b.get_history (natLimitToInt limit) fa ta = get_history_spec b limit fa ta := by
  cases fa with
  | none =>
      cases ta with
      | none =>
          cases limit with
          | none => rfl
          | some l =>
              simp only [MessageBus.get_history, get_history_spec, natLimitToInt]
              exact c8aux_trim b.history l (hl l rfl)
      | some t =>
          have ht : t ≠ "" := fun h => hta (by rw [h])
          cases limit with
          | none =>
              simp only [MessageBus.get_history, get_history_spec, natLimitToInt]
              rw [if_neg ht]
          | some l =>
              simp only [MessageBus.get_history, get_history_spec, natLimitToInt]
              rw [if_neg ht]
              exact c8aux_trim _ l (hl l rfl)
  | some s =>
      have hs : s ≠ "" := fun h => hfa (by rw [h])
      cases ta with
      | none =>
          cases limit with
          | none =>
              simp only [MessageBus.get_history, get_history_spec, natLimitToInt]
              rw [if_neg hs]
          | some l =>
              simp only [MessageBus.get_history, get_history_spec, natLimitToInt]
              rw [if_neg hs]
              exact c8aux_trim _ l (hl l rfl)
      | some t =>
          have ht : t ≠ "" := fun h => hta (by rw [h])
          cases limit with
          | none =>
              simp only [MessageBus.get_history, get_history_spec, natLimitToInt]
              rw [if_neg hs, if_neg ht]
          | some l =>
              simp only [MessageBus.get_history, get_history_spec, natLimitToInt]
              rw [if_neg hs, if_neg ht]
              exact c8aux_trim _ l (hl l rfl)

theorem get_history_matches_spec_witness :
    busHist.get_history (some (1 : Int)) (some "A") none
      = get_history_spec busHist (some 1) (some "A") none :=
  get_history_matches_spec busHist (some 1) (some "A") none
    (by decide) (by decide) (fun l h => by cases h; decide)

/-- Repeated `get_message` calls for one agent, collecting the dequeued
messages; `fuel` bounds the number of calls. -/
def receiveAllAux : Nat → MessageBus → String → List Msg
  | 0, _, _ => []
  | fuel + 1, b, name =>
      match b.get_message name with
      | (b2, some m) => m :: receiveAllAux fuel b2 name
      | (_, none) => []

theorem receiveAllAux_drains
    (q : List Msg) (b : MessageBus) (name : String)
    (h : dictGet b.queues name = some q) :
    receiveAllAux q.length b name = q := by
  induction q generalizing b with
  | nil => rfl
  | cons m rest ih =>
      have hg : b.get_message name
          = ({ b with queues := dictSet b.queues name rest }, some m) := by
        unfold MessageBus.get_message
        rw [h]
      show receiveAllAux (rest.length + 1) b name = m :: rest
      rw [receiveAllAux, hg]
      exact congrArg (fun l => m :: l) (ih _ (dictGet_dictSet_self b.queues name rest))

theorem send_message_registered
    (b : MessageBus) (name : String) (q : List Msg) (m : Msg) (t : String)
    (h : dictGet b.queues name = some q) :
    b.send_message name m t
      = ({ b with queues := dictSet b.queues name (q ++ [stampMsg m t]),
                  history := b.history ++ [stampMsg m t] }, true) := by
  unfold MessageBus.send_message
  rw [h]

/-- C1: per-mailbox delivery order equals submission order. Sending `m1`
then `m2` to a registered receiver whose mailbox holds `q` leaves the
mailbox as `q ++ [m1, m2]` (bus-stamped), and draining the mailbox by
successive `get_message` calls dequeues exactly that list in order - in
particular `m1` strictly before `m2`. -/
theorem send_send_fifo
    (b : MessageBus) (name : String) (q : List Msg) (m1 m2 : Msg) (t1 t2 : String)
    (h : dictGet b.queues name = some q) :
    dictGet ((b.send_message name m1 t1).1.send_message name m2 t2).1.queues name
      = some (q ++ [stampMsg m1 t1, stampMsg m2 t2]) ∧
    receiveAllAux (q.length + 2) ((b.send_message name m1 t1).1.send_message name m2 t2).1 name
      = q ++ [stampMsg m1 t1, stampMsg m2 t2] := by
  have e1 := send_message_registered b name q m1 t1 h
  have hq1 : dictGet (b.send_message name m1 t1).1.queues name
      = some (q ++ [stampMsg m1 t1]) := by
    simp only [e1]
    exact dictGet_dictSet_self _ _ _
  have e2 := send_message_registered (b.send_message name m1 t1).1 name
    (q ++ [stampMsg m1 t1]) m2 t2 hq1
  have hq2 : dictGet ((b.send_message name m1 t1).1.send_message name m2 t2).1.queues name
      = some (q ++ [stampMsg m1 t1, stampMsg m2 t2]) := by
    simp only [e2]
    have hself := dictGet_dictSet_self (b.send_message name m1 t1).1.queues name
      ((q ++ [stampMsg m1 t1]) ++ [stampMsg m2 t2])
    rw [hself, List.append_assoc]
    rfl
  refine ⟨hq2, ?_⟩
  have hlen : q.length + 2 = (q ++ [stampMsg m1 t1, stampMsg m2 t2]).length := by simp
  rw [hlen]
  exact receiveAllAux_drains _ _ name hq2

theorem send_send_fifo_witness :
    receiveAllAux 2 ((busB1.send_message "B" msgEcho "t1").1.send_message "B" msgEcho2 "t2").1 "B"
      = [stampMsg msgEcho "t1", stampMsg msgEcho2 "t2"] :=
  (send_send_fifo busB1 "B" [] msgEcho msgEcho2 "t1" "t2" rfl).2

/-- The sender's message object for the aliasing analysis: its payload is
held in cell 0 of the payload heap. -/
def objEcho : RefModel.MsgObj :=
  { message_id := "mid1", timestamp := "t0", from_ := "A", to_ := "B",
    task := "echo", payloadRef := 0, priority := some "normal",
    bus_timestamp := none }

/-- Heap holding the sender's message object in cell 0 and its payload
dict (x = 1) in payload cell 0. -/
def stEcho : RefModel.Store :=
  { msgs := [(0, objEcho)], payloads := [(0, [("x", "1")])], next := 1 }

/-- Reference-level bus with "B" registered and an empty mailbox. -/
def rbB : RefModel.RefBus := { queues := [("B", [])], history := [] }

/-- The state after `send_message(st, "B", ref 0)`. -/
def sendEcho : RefModel.Store × RefModel.RefBus × Bool :=
  RefModel.send_message stEcho rbB "B" 0 "t1"

/-- The heap after the sender mutates its payload (`payload["x"] = "2"`)
once send has returned. -/
def stMut : RefModel.Store := sendEcho.1.setPayloadKey 0 "x" "2"

/-- C4 counterexample: `send_message` puts the sender's dict reference
itself into the mailbox (line 77) and only a SHALLOW copy into the history
(line 80), so a payload mutation performed by the sender after send returns
IS visible both in the message subsequently dequeued by receive and in the
recorded history entry - refuting the claimed unshared copies. -/
theorem send_shares_references_counterexample :
    sendEcho.2.2 = true ∧
    dictGet sendEcho.2.1.queues "B" = some [0] ∧
    (RefModel.get_message sendEcho.2.1 "B").2 = some 0 ∧
    stMut.payloadAt ((dictGet stMut.msgs 0).getD objEcho).payloadRef = [("x", "2")] ∧
    sendEcho.2.1.history = [1] ∧
    stMut.payloadAt ((dictGet stMut.msgs 1).getD objEcho).payloadRef = [("x", "2")] ∧
    stEcho.payloadAt objEcho.payloadRef = [("x", "1")] ∧
    ¬ ([("x", "2")] = ([("x", "1")] : List (String × String))) := by decide

/-- C4 (amended): on a successful send the receiver's mailbox holds the
sender's message object by reference, so later mutations through the
sender's reference are visible in the dequeued message; the history entry
is a freshly allocated shallow copy - its top-level fields are immune to
later top-level mutations of the sender's object (witness: a task
mutation), but it shares the payload cell, so payload mutations by the
sender do reach both the queued message and the history entry. -/
theorem send_sharing_semantics
    (st : RefModel.Store) (b : RefModel.RefBus) (name : String) (q : List Nat)
    (msgRef : Nat) (obj : RefModel.MsgObj) (now v : String)
    (hq : dictGet b.queues name = some q)
    (hm : dictGet st.msgs msgRef = some obj)
    (hfresh : msgRef ≠ st.next) :
    dictGet (RefModel.send_message st b name msgRef now).2.1.queues name
      = some (q ++ [msgRef]) ∧
    (RefModel.send_message st b name msgRef now).2.1.history = b.history ++ [st.next] ∧
    dictGet (RefModel.send_message st b name msgRef now).1.msgs st.next
      = some { obj with bus_timestamp := some now } ∧
    dictGet ((RefModel.send_message st b name msgRef now).1.setTask msgRef v).msgs st.next
      = some { obj with bus_timestamp := some now } ∧
    ((RefModel.send_message st b name msgRef now).1.setPayloadKey obj.payloadRef "k" v).payloadAt
        obj.payloadRef
      = dictSet ((RefModel.send_message st b name msgRef now).1.payloadAt obj.payloadRef) "k" v := by
  have e : RefModel.send_message st b name msgRef now
      = ({ st with
             msgs := dictSet (dictSet st.msgs msgRef { obj with bus_timestamp := some now })
                       st.next { obj with bus_timestamp := some now },
             next := st.next + 1 },
         { b with queues := dictSet b.queues name (q ++ [msgRef]),
                  history := b.history ++ [st.next] }, true) := by
    unfold RefModel.send_message
    rw [hq, hm]
  have hlook : dictGet (dictSet (dictSet st.msgs msgRef { obj with bus_timestamp := some now })
        st.next { obj with bus_timestamp := some now }) msgRef
      = some { obj with bus_timestamp := some now } := by
    rw [dictGet_dictSet_ne _ _ _ _ hfresh]
    exact dictGet_dictSet_self _ _ _
  refine ⟨?_, ?_, ?_, ?_, ?_⟩
  · simp only [e]
    exact dictGet_dictSet_self _ _ _
  · simp only [e]
  · simp only [e]
    exact dictGet_dictSet_self _ _ _
  · simp only [e]
    unfold RefModel.Store.setTask
    rw [hlook]
    simp only []
    rw [dictGet_dictSet_ne _ _ _ _ (Ne.symm hfresh)]
    exact dictGet_dictSet_self _ _ _
  · simp only [e]
    unfold RefModel.Store.setPayloadKey
    simp only [RefModel.Store.payloadAt]
    rw [dictGet_dictSet_self]
    rfl

theorem send_sharing_semantics_witness :
    dictGet sendEcho.2.1.queues "B" = some [0] ∧
    sendEcho.2.1.history = [1] :=
  ⟨(send_sharing_semantics stEcho rbB "B" [] 0 objEcho "t1" "zz"
      rfl rfl (by decide)).1,
   (send_sharing_semantics stEcho rbB "B" [] 0 objEcho "t1" "zz"
      rfl rfl (by decide)).2.1⟩

theorem dictGet_append_left_none {κ α : Type} [DecidableEq κ]
    (d1 d2 : List (κ × α)) (k : κ) (h : dictGet d1 k = none) :
    dictGet (d1 ++ d2) k = dictGet d2 k := by
  induction d1 with
  | nil => rfl
  | cons kv rest ih =>
      obtain ⟨k0, v0⟩ := kv
      by_cases h0 : k0 = k
      · simp [dictGet, h0] at h
      · simp only [dictGet, if_neg h0] at h
        simp only [List.cons_append, dictGet, if_neg h0]
        exact ih h

theorem busWF_empty : BusWF MessageBus.empty := ⟨rfl, List.nodup_nil⟩

theorem busWF_register (b : MessageBus) (n : String) (h : BusWF b) :
    BusWF (b.register_agent n).1 := by
  obtain ⟨heq, hnd⟩ := h
  unfold MessageBus.register_agent
  by_cases hc : (dictGet b.queues n).isSome
  · rw [if_pos hc]
    exact ⟨heq, hnd⟩
  · rw [if_neg hc]
    have hnone : dictGet b.queues n = none := Option.not_isSome_iff_eq_none.mp hc
    have hmem : n ∉ dictKeys b.queues := by
      rw [← dictGet_isSome_iff_mem_keys, hnone]
      simp
    constructor
    · show b.registered_agents ++ [n] = dictKeys (dictSet b.queues n [])
      rw [dictSet_of_not_mem _ _ _ hnone, heq]
      simp [dictKeys]
    · show (dictKeys (dictSet b.queues n [])).Nodup
      rw [dictSet_of_not_mem _ _ _ hnone]
      have : dictKeys (b.queues ++ [(n, [])]) = dictKeys b.queues ++ [n] := by
        simp [dictKeys]
      rw [this, List.nodup_append]
      exact ⟨hnd, List.nodup_singleton n,
        fun a ha hb => hmem (by simpa using (List.mem_singleton.mp hb) ▸ ha)⟩

theorem busWF_unregister (b : MessageBus) (n : String) (h : BusWF b) :
    BusWF (b.unregister_agent n).1 := by
  obtain ⟨heq, hnd⟩ := h
  unfold MessageBus.unregister_agent
  by_cases hc : (dictGet b.queues n).isSome
  · rw [if_pos hc]
    constructor
    · show b.registered_agents.erase n = dictKeys (dictRemove b.queues n)
      rw [dictKeys_dictRemove, heq]
    · rw [dictKeys_dictRemove]
      exact hnd.erase n
  · rw [if_neg hc]
    exact ⟨heq, hnd⟩

theorem busWF_send (b : MessageBus) (to_agent : String) (m : Msg) (now : String)
    (h : BusWF b) : BusWF (b.send_message to_agent m now).1 := by
  obtain ⟨heq, hnd⟩ := h
  unfold MessageBus.send_message
  cases hg : dictGet b.queues to_agent with
  | none => exact ⟨heq, hnd⟩
  | some q =>
      have hkeys : dictKeys (dictSet b.queues to_agent (q ++ [stampMsg m now]))
          = dictKeys b.queues :=
        dictKeys_dictSet_of_mem _ _ _ (by simp [hg])
      constructor
      · show b.registered_agents = dictKeys (dictSet b.queues to_agent (q ++ [stampMsg m now]))
        rw [hkeys]
        exact heq
      · show (dictKeys (dictSet b.queues to_agent (q ++ [stampMsg m now]))).Nodup
        rw [hkeys]
        exact hnd

theorem busWF_receive (b : MessageBus) (name : String) (h : BusWF b) :
    BusWF (b.get_message name).1 := by
  obtain ⟨heq, hnd⟩ := h
  unfold MessageBus.get_message
  cases hg : dictGet b.queues name with
  | none => exact ⟨heq, hnd⟩
  | some q =>
      cases q with
      | nil => exact ⟨heq, hnd⟩
      | cons m rest =>
          have hkeys : dictKeys (dictSet b.queues name rest) = dictKeys b.queues :=
            dictKeys_dictSet_of_mem _ _ _ (by simp [hg])
          constructor
          · show b.registered_agents = dictKeys (dictSet b.queues name rest)
            rw [hkeys]
            exact heq
          · show (dictKeys (dictSet b.queues name rest)).Nodup
            rw [hkeys]
            exact hnd

theorem busWF_unregFold (ns : List String) (b : MessageBus) (h : BusWF b) :
    BusWF (ns.foldl (fun acc n => (acc.unregister_agent n).1) b) := by
  induction ns generalizing b with
  | nil => exact h
  | cons n rest ih => exact ih _ (busWF_unregister b n h)

theorem busWF_reset (b : MessageBus) (h : BusWF b) : BusWF b.reset := by
  have h2 := busWF_unregFold (dictKeys b.queues) b h
  exact ⟨h2.1, h2.2⟩

theorem busWF_applyOp (b : MessageBus) (op : BusOp) (h : BusWF b) :
    BusWF (applyOp b op) := by
  cases op with
  | register n => exact busWF_register b n h
  | unregister n => exact busWF_unregister b n h
  | send to_agent m now => exact busWF_send b to_agent m now h
  | receive n => exact busWF_receive b n h
  | reset => exact busWF_reset b h

theorem busWF_runOps (ops : List BusOp) (b : MessageBus) (h : BusWF b) :
    BusWF (runOps b ops) := by
  induction ops generalizing b with
  | nil => exact h
  | cons op rest ih => exact ih _ (busWF_applyOp b op h)

theorem foldl_dictSet_fresh {α : Type} (f : String → α) (ns : List String) :
    ∀ (acc : List (String × α)), ns.Nodup → (∀ n ∈ ns, dictGet acc n = none) →
      ns.foldl (fun a n => dictSet a n (f n)) acc = acc ++ ns.map (fun n => (n, f n)) := by
  induction ns with
  | nil =>
      intro acc _ _
      simp
  | cons n rest ih =>
      intro acc hnd hfresh
      have hn : dictGet acc n = none := hfresh n (List.mem_cons_self n rest)
      show rest.foldl (fun a n => dictSet a n (f n)) (dictSet acc n (f n))
          = acc ++ ((n, f n) :: rest.map (fun m => (m, f m)))
      rw [dictSet_of_not_mem _ _ _ hn]
      rw [ih (acc ++ [(n, f n)]) (List.nodup_cons.mp hnd).2 ?_]
      · simp
      · intro m hm
        rw [dictGet_append_left_none _ _ _ (hfresh m (List.mem_cons_of_mem n hm))]
        have hne : ¬ (n = m) := fun he => (List.nodup_cons.mp hnd).1 (he ▸ hm)
        simp [dictGet, hne]

theorem get_stats_pending_keys (b : MessageBus) (hnd : b.registered_agents.Nodup) :
    dictKeys b.get_stats.pending_messages = b.registered_agents := by
  unfold MessageBus.get_stats
  rw [foldl_dictSet_fresh (fun n => b.get_queue_size n) b.registered_agents [] hnd
    (fun n _ => rfl)]
  simp only [dictKeys, List.nil_append, List.map_map]
  exact (List.map_congr_left (fun a _ => rfl)).trans (List.map_id b.registered_agents)

/-- C10: after any sequence of bus operations starting from a fresh bus,
the registered-agent list has no duplicates and coincides exactly with the
set of names owning a mailbox, and `get_stats` reports exactly one
pending-count entry per registered name (and no others) - its key list is
the registered-agent list itself. -/
theorem bus_registry_consistent (ops : List BusOp) :
    (runOps MessageBus.empty ops).registered_agents.Nodup ∧
    (∀ n, n ∈ (runOps MessageBus.empty ops).registered_agents ↔
       (dictGet (runOps MessageBus.empty ops).queues n).isSome) ∧
    dictKeys (runOps MessageBus.empty ops).get_stats.pending_messages
      = (runOps MessageBus.empty ops).registered_agents := by
  obtain ⟨heq, hnd⟩ := busWF_runOps ops MessageBus.empty busWF_empty
  refine ⟨?_, ?_, ?_⟩
  · rw [heq]
    exact hnd
  · intro n
    rw [heq]
    exact (dictGet_isSome_iff_mem_keys _ n).symm
  · exact get_stats_pending_keys _ (by rw [heq]; exact hnd)

theorem dictGet_isSome_eq_of_keys_eq {κ α β : Type} [DecidableEq κ]
    (d1 : List (κ × α)) (d2 : List (κ × β)) (k : κ)
    (hk : dictKeys d1 = dictKeys d2) :
    (dictGet d1 k).isSome = (dictGet d2 k).isSome := by
  cases h1 : dictGet d1 k with
  | some v =>
      have hm : k ∈ dictKeys d2 := by
        rw [← hk, ← dictGet_isSome_iff_mem_keys]
        simp [h1]
      exact ((dictGet_isSome_iff_mem_keys d2 k).mpr hm).symm
  | none =>
      have hm : k ∉ dictKeys d2 := by
        rw [← hk, ← dictGet_isSome_iff_mem_keys]
        simp [h1]
      cases h2 : dictGet d2 k with
      | none => rfl
      | some w =>
          exact absurd ((dictGet_isSome_iff_mem_keys d2 k).mp (by simp [h2])) hm

theorem send_message_keys (b : MessageBus) (to_agent : String) (m : Msg) (now : String) :
    dictKeys (b.send_message to_agent m now).1.queues = dictKeys b.queues := by
  unfold MessageBus.send_message
  cases hg : dictGet b.queues to_agent with
  | none => rfl
  | some q =>
      show dictKeys (dictSet b.queues to_agent (q ++ [stampMsg m now])) = dictKeys b.queues
      exact dictKeys_dictSet_of_mem _ _ _ (by simp [hg])

theorem send_message_queue_other (b : MessageBus) (to_agent : String) (m : Msg)
    (now : String) (n : String) (h : n ≠ to_agent) :
    dictGet (b.send_message to_agent m now).1.queues n = dictGet b.queues n := by
  unfold MessageBus.send_message
  cases hg : dictGet b.queues to_agent with
  | none => rfl
  | some q =>
      show dictGet (dictSet b.queues to_agent (q ++ [stampMsg m now])) n = dictGet b.queues n
      exact dictGet_dictSet_ne _ _ _ _ h

theorem bcastStep_keys (task : String) (payload : List (String × String))
    (excl : List String) (nowTs nowIso : String) (bus : MessageBus) (n : String) :
    dictKeys (bcastStep task payload excl nowTs nowIso bus n).queues = dictKeys bus.queues := by
  unfold bcastStep
  by_cases hm : n ∈ excl
  · rw [if_pos hm]
  · rw [if_neg hm]
    exact send_message_keys _ _ _ _

theorem bcastFold_keys (task : String) (payload : List (String × String))
    (excl : List String) (nowTs nowIso : String) (ns : List String) :
    ∀ bus : MessageBus,
      dictKeys ((ns.foldl (bcastStep task payload excl nowTs nowIso) bus)).queues
        = dictKeys bus.queues := by
  induction ns with
  | nil => intro bus; rfl
  | cons a rest ih =>
      intro bus
      show dictKeys ((rest.foldl (bcastStep task payload excl nowTs nowIso)
        (bcastStep task payload excl nowTs nowIso bus a))).queues = dictKeys bus.queues
      rw [ih (bcastStep task payload excl nowTs nowIso bus a)]
      exact bcastStep_keys task payload excl nowTs nowIso bus a

theorem bcastFold_queue_other (task : String) (payload : List (String × String))
    (excl : List String) (nowTs nowIso : String) (ns : List String) :
    ∀ (bus : MessageBus) (n : String), n ∈ excl ∨ n ∉ ns →
      dictGet ((ns.foldl (bcastStep task payload excl nowTs nowIso) bus)).queues n
        = dictGet bus.queues n := by
  induction ns with
  | nil => intro bus n _; rfl
  | cons a rest ih =>
      intro bus n hcond
      have hcond2 : n ∈ excl ∨ n ∉ rest :=
        hcond.imp id (fun h hm => h (List.mem_cons_of_mem a hm))
      show dictGet ((rest.foldl (bcastStep task payload excl nowTs nowIso)
        (bcastStep task payload excl nowTs nowIso bus a))).queues n = dictGet bus.queues n
      rw [ih (bcastStep task payload excl nowTs nowIso bus a) n hcond2]
      unfold bcastStep
      by_cases hm : a ∈ excl
      · rw [if_pos hm]
      · rw [if_neg hm]
        have hne : n ≠ a := by
          rcases hcond with hx | hx
          · exact fun he => hm (he ▸ hx)
          · exact fun he => hx (he ▸ List.mem_cons_self a rest)
        exact send_message_queue_other _ _ _ _ _ hne

theorem bcastFold_queue_target (task : String) (payload : List (String × String))
    (excl : List String) (nowTs nowIso : String) (ns : List String) :
    ∀ (bus : MessageBus) (n : String) (qn : List Msg), ns.Nodup → n ∈ ns → n ∉ excl →
      dictGet bus.queues n = some qn →
      dictGet ((ns.foldl (bcastStep task payload excl nowTs nowIso) bus)).queues n
        = some (qn ++ [stampMsg (broadcastMsg task payload nowTs nowIso n) nowIso]) := by
  induction ns with
  | nil => intro bus n qn _ hmem; exact absurd hmem (List.not_mem_nil n)
  | cons a rest ih =>
      intro bus n qn hnd hmem hex hq
      show dictGet ((rest.foldl (bcastStep task payload excl nowTs nowIso)
        (bcastStep task payload excl nowTs nowIso bus a))).queues n = _
      by_cases han : a = n
      · subst han
        have hanotin : a ∉ rest := (List.nodup_cons.mp hnd).1
        rw [bcastFold_queue_other task payload excl nowTs nowIso rest
          (bcastStep task payload excl nowTs nowIso bus a) a (Or.inr hanotin)]
        unfold bcastStep
        rw [if_neg hex]
        rw [send_message_registered bus a qn (broadcastMsg task payload nowTs nowIso a) nowIso hq]
        exact dictGet_dictSet_self _ _ _
      · have hq2 : dictGet (bcastStep task payload excl nowTs nowIso bus a).queues n = some qn := by
          unfold bcastStep
          by_cases hm : a ∈ excl
          · rw [if_pos hm]
            exact hq
          · rw [if_neg hm]
            rw [send_message_queue_other _ _ _ _ _ (fun he => han he.symm)]
            exact hq
        have hmem2 : n ∈ rest := by
          rcases List.mem_cons.mp hmem with he | hr
          · exact absurd he.symm han
          · exact hr
        exact ih (bcastStep task payload excl nowTs nowIso bus a) n qn
          (List.nodup_cons.mp hnd).2 hmem2 hex hq2

theorem bcastFold_history (task : String) (payload : List (String × String))
    (excl : List String) (nowTs nowIso : String) (ns : List String) :
    ∀ bus : MessageBus,
      ((ns.foldl (bcastStep task payload excl nowTs nowIso) bus)).history
        = bus.history ++
          (ns.filter (fun n => decide (n ∉ excl) && (dictGet bus.queues n).isSome)).map
            (fun n => stampMsg (broadcastMsg task payload nowTs nowIso n) nowIso) := by
  induction ns with
  | nil =>
      intro bus
      simp
  | cons a rest ih =>
      intro bus
      show ((rest.foldl (bcastStep task payload excl nowTs nowIso)
        (bcastStep task payload excl nowTs nowIso bus a))).history = _
      rw [ih (bcastStep task payload excl nowTs nowIso bus a)]
      have hfeq : rest.filter
          (fun n => decide (n ∉ excl)
            && (dictGet (bcastStep task payload excl nowTs nowIso bus a).queues n).isSome)
          = rest.filter (fun n => decide (n ∉ excl) && (dictGet bus.queues n).isSome) := by
        apply List.filter_congr
        intro n _
        rw [dictGet_isSome_eq_of_keys_eq _ _ n (bcastStep_keys task payload excl nowTs nowIso bus a)]
      rw [hfeq]
      by_cases hm : a ∈ excl
      · have hstep : bcastStep task payload excl nowTs nowIso bus a = bus := by
          unfold bcastStep
          rw [if_pos hm]
        rw [hstep]
        have hpa : ¬ ((fun n => decide (n ∉ excl) && (dictGet bus.queues n).isSome) a = true) := by
          simp [hm]
        rw [List.filter_cons, if_neg hpa]
      · by_cases hreg : (dictGet bus.queues a).isSome
        · obtain ⟨qa, hqa⟩ := Option.isSome_iff_exists.mp hreg
          have hstep : bcastStep task payload excl nowTs nowIso bus a
              = { bus with
                    queues := dictSet bus.queues a
                      (qa ++ [stampMsg (broadcastMsg task payload nowTs nowIso a) nowIso]),
                    history := bus.history
                      ++ [stampMsg (broadcastMsg task payload nowTs nowIso a) nowIso] } := by
            unfold bcastStep
            rw [if_neg hm, send_message_registered bus a qa
              (broadcastMsg task payload nowTs nowIso a) nowIso hqa]
          rw [hstep]
          have hpa : (fun n => decide (n ∉ excl) && (dictGet bus.queues n).isSome) a = true := by
            simp [hm, hreg]
          rw [List.filter_cons, if_pos hpa]
          simp
        · have hnone : dictGet bus.queues a = none := Option.not_isSome_iff_eq_none.mp hreg
          have hstep : bcastStep task payload excl nowTs nowIso bus a = bus := by
            unfold bcastStep
            rw [if_neg hm]
            unfold MessageBus.send_message
            rw [hnone]
          rw [hstep]
          have hpa : ¬ ((fun n => decide (n ∉ excl) && (dictGet bus.queues n).isSome) a = true) := by
            simp [hnone]
          rw [List.filter_cons, if_neg hpa]

/-- A bus with A, B and C registered and nothing pending. -/
def busABC : MessageBus :=
  (((MessageBus.empty.register_agent "A").1.register_agent "B").1.register_agent "C").1

/-- A manager owning agents A, B, C, all registered on `busABC`. -/
def mgrABC : AgentManager := { agents := ["A", "B", "C"], message_bus := busABC }

/-- C7: `send_broadcast` enqueues exactly one individually-addressed message
per manager-registered name that is not excluded and has a mailbox, appends
exactly those messages to the history (so the total-sent counter grows by
their number - when every name is bus-registered, by the number of
non-excluded names), and leaves every other mailbox untouched; a failed
send to an unregistered target does not prevent the sends to the remaining
targets, which is why the per-target clauses need no assumption on the
other names. -/
theorem send_broadcast_coverage
    (mgr : AgentManager) (task : String) (payload : List (String × String))
    (exclude : List String) (nowTs nowIso : String)
    (hnd : mgr.agents.Nodup) :
    ((mgr.send_broadcast task payload (some exclude) nowTs nowIso).message_bus.history
      = mgr.message_bus.history ++
        (mgr.agents.filter
          (fun n => decide (n ∉ exclude) && (dictGet mgr.message_bus.queues n).isSome)).map
          (fun n => stampMsg (broadcastMsg task payload nowTs nowIso n) nowIso)) ∧
    (∀ n ∈ mgr.agents, n ∉ exclude → ∀ qn, dictGet mgr.message_bus.queues n = some qn →
       dictGet (mgr.send_broadcast task payload (some exclude) nowTs nowIso).message_bus.queues n
         = some (qn ++ [stampMsg (broadcastMsg task payload nowTs nowIso n) nowIso])) ∧
    (∀ n, n ∈ exclude ∨ n ∉ mgr.agents →
       dictGet (mgr.send_broadcast task payload (some exclude) nowTs nowIso).message_bus.queues n
         = dictGet mgr.message_bus.queues n) ∧
    ((∀ n ∈ mgr.agents, (dictGet mgr.message_bus.queues n).isSome) →
       (mgr.send_broadcast task payload (some exclude)
          nowTs nowIso).message_bus.get_stats.total_messages_sent
         = mgr.message_bus.get_stats.total_messages_sent
           + (mgr.agents.filter (fun n => decide (n ∉ exclude))).length) := by
  have hbus : (mgr.send_broadcast task payload (some exclude) nowTs nowIso).message_bus
      = mgr.agents.foldl (bcastStep task payload exclude nowTs nowIso) mgr.message_bus := rfl
  refine ⟨?_, ?_, ?_, ?_⟩
  · rw [hbus]
    exact bcastFold_history task payload exclude nowTs nowIso mgr.agents mgr.message_bus
  · intro n hmem hex qn hq
    rw [hbus]
    exact bcastFold_queue_target task payload exclude nowTs nowIso mgr.agents
      mgr.message_bus n qn hnd hmem hex hq
  · intro n hcond
    rw [hbus]
    exact bcastFold_queue_other task payload exclude nowTs nowIso mgr.agents
      mgr.message_bus n hcond
  · intro hreg
    have hfeq : mgr.agents.filter
        (fun n => decide (n ∉ exclude) && (dictGet mgr.message_bus.queues n).isSome)
        = mgr.agents.filter (fun n => decide (n ∉ exclude)) := by
      apply List.filter_congr
      intro n hn
      rw [hreg n hn, Bool.and_true]
    show ((mgr.agents.foldl (bcastStep task payload exclude nowTs nowIso)
        mgr.message_bus)).history.length
      = mgr.message_bus.history.length
        + (mgr.agents.filter (fun n => decide (n ∉ exclude))).length
    rw [bcastFold_history task payload exclude nowTs nowIso mgr.agents mgr.message_bus,
      hfeq, List.length_append, List.length_map]

theorem send_broadcast_coverage_witness :
    (mgrABC.send_broadcast "ping" [("k", "v")] (some ["A"])
        "ts" "iso").message_bus.get_stats.total_messages_sent = 2 ∧
    dictGet (mgrABC.send_broadcast "ping" [("k", "v")] (some ["A"])
        "ts" "iso").message_bus.queues "B"
      = some [stampMsg (broadcastMsg "ping" [("k", "v")] "ts" "iso" "B") "iso"] ∧
    dictGet (mgrABC.send_broadcast "ping" [("k", "v")] (some ["A"])
        "ts" "iso").message_bus.queues "A"
      = dictGet mgrABC.message_bus.queues "A" :=
  ⟨((send_broadcast_coverage mgrABC "ping" [("k", "v")] ["A"] "ts" "iso" (by decide)).2.2.2
      (by intro n hn; fin_cases hn <;> decide)).trans (by decide),
   (send_broadcast_coverage mgrABC "ping" [("k", "v")] ["A"] "ts" "iso" (by decide)).2.1
      "B" (by decide) (by decide) [] (by decide),
   (send_broadcast_coverage mgrABC "ping" [("k", "v")] ["A"] "ts" "iso" (by decide)).2.2.1
      "A" (Or.inl (by decide))⟩

end MultiAgent
